import Mathlib

/-!
Verification of the real-time basecalling driver (`basecall.py`).

The script watches an input directory for `.fast5` files, batches new files,
runs an external basecaller on each batch, merges the per-batch outputs into
consolidated per-run files, and reports running statistics (read N50,
time-windowed translocation speed, per-barcode distribution).

This file gives a shallow embedding of the script's data model and of the
functions the claims are about, and proves (or refutes) each claim.
Conventions of the embedding:
* a text file is a `List String` of its lines (without the trailing newline);
  a file that may not exist is an `Option (List String)`;
* Python `str` operations that the kernel cannot reduce are re-implemented
  structurally on `List Char` (`pyStrip`, `pySplit`, `pyStartswith`, `strLeB`);
* Python `sorted` is modelled by `List.insertionSort` (a stable sort, like
  Python's);
* Python exceptions are modelled with `Except PyErr`;
* Python machine floats are modelled as exact rationals; for the one claim
  where double rounding is observable (the idle-loop stop time) an explicit
  model of IEEE-754 binary64 round-to-nearest-even is used.
-/

namespace Basecall

/-- Python exceptions that the modelled code can raise. -/
inductive PyErr where
  | keyError (key : String)
  | valueError
  | indexError
  | zeroDivisionError
  | calledProcessError (returncode : ℤ)
deriving DecidableEq, Repr

/-! ## Python string primitives, modelled structurally on `List Char` -/

/-- `s.strip()` on the character list: drop whitespace from both ends. -/
def pyStripChars (s : List Char) : List Char :=
  ((s.dropWhile Char.isWhitespace).reverse.dropWhile Char.isWhitespace).reverse

/-- Python `str.strip()` (default whitespace stripping). -/
def pyStrip (s : String) : String :=
  ⟨pyStripChars s.data⟩

/-- Python `str.split(sep)` for a one-character separator: split on every
occurrence, keeping empty pieces (`''.split(t) == ['']`). -/
def pySplit (sep : Char) : List Char → List (List Char)
  | [] => [[]]
  | c :: cs =>
    match pySplit sep cs with
    | [] => [[c]]
    | p :: ps => if c = sep then [] :: p :: ps else (c :: p) :: ps

/-- Python `str.startswith(pat)`. -/
def pyStartswith (s pat : String) : Bool :=
  pat.data.isPrefixOf s.data

/-- Lexicographic string comparison (Python `<=` on `str`, and the order in
which `sorted` puts POSIX paths). -/
def strLeB : List Char → List Char → Bool
  | [], _ => true
  | _ :: _, [] => false
  | a :: as, b :: bs => if a < b then true else if b < a then false else strLeB as bs

/-! ## `get_n50` (basecall.py lines 359-368)

```
def get_n50(sequence_lengths):
    sequence_lengths = sorted(sequence_lengths, reverse=True)
    total_bases = sum(sequence_lengths)
    target_bases = total_bases * 0.5
    bases_so_far = 0
    for sequence_length in sequence_lengths:
        bases_so_far += sequence_length
        if bases_so_far >= target_bases:
            return sequence_length
    return 0
```

The comparison `bases_so_far >= total_bases * 0.5` is embedded exactly as
`total_bases <= 2 * bases_so_far` (the float product `total_bases * 0.5` is
exact whenever `total_bases < 2^53`). -/

/-- The `for` loop of `get_n50`: arguments are the remaining (descending)
lengths, the precomputed total, and the bases accumulated so far. -/
def get_n50_go : List ℕ → ℕ → ℕ → ℕ
  | [], _, _ => 0
  | sequence_length :: rest, total_bases, bases_so_far =>
    if total_bases ≤ 2 * (bases_so_far + sequence_length) then sequence_length
    else get_n50_go rest total_bases (bases_so_far + sequence_length)

/-- `get_n50`: sort descending, accumulate until half the total is reached. -/
def get_n50 (sequence_lengths : List ℕ) : ℕ :=
  let sorted_lengths := sequence_lengths.insertionSort (· ≥ ·)
  get_n50_go sorted_lengths sorted_lengths.sum 0

/-- Sum of all occurrences of elements `≥ k` in `l`. -/
def sumGE (k : ℕ) (l : List ℕ) : ℕ :=
  (l.filter (fun y => decide (k ≤ y))).sum

lemma sum_filter_le (p : ℕ → Bool) : ∀ l : List ℕ, (l.filter p).sum ≤ l.sum
  | [] => le_refl _
  | x :: xs => by
    by_cases h : p x
    · simpa [List.filter_cons, h] using Nat.add_le_add_left (sum_filter_le p xs) x
    · simp only [List.filter_cons, h, if_neg, Bool.false_eq_true, List.sum_cons]
      exact le_trans (sum_filter_le p xs) (Nat.le_add_left _ _)

lemma sumGE_le_sum (k : ℕ) (l : List ℕ) : sumGE k l ≤ l.sum :=
  sum_filter_le _ l

lemma sumGE_append (k : ℕ) (l₁ l₂ : List ℕ) :
    sumGE k (l₁ ++ l₂) = sumGE k l₁ + sumGE k l₂ := by
  simp [sumGE, List.filter_append]

/-- Core loop invariant proof for `get_n50`.  The full sorted list is
`p ++ l`; the loop has consumed `p` (so `bases_so_far = p.sum`) and has not
yet reached the target (`2 * p.sum < total`). -/
lemma get_n50_go_spec : ∀ (l p : List ℕ), List.Pairwise (· ≥ ·) (p ++ l) → l ≠ [] →
    2 * p.sum < (p ++ l).sum →
    get_n50_go l (p ++ l).sum p.sum ∈ l ∧
    (p ++ l).sum ≤ 2 * sumGE (get_n50_go l (p ++ l).sum p.sum) (p ++ l) ∧
    ∀ y ∈ p ++ l, get_n50_go l (p ++ l).sum p.sum < y →
      2 * sumGE y (p ++ l) < (p ++ l).sum
  | [], _, _, hl, _ => absurd rfl hl
  | x :: rest, p, hsorted, _, hacc => by
    have hp_ge : ∀ a ∈ p, ∀ b ∈ x :: rest, a ≥ b := by
      intro a ha b hb
      exact (List.pairwise_append.mp hsorted).2.2 a ha b hb
    have hrest_le : ∀ a ∈ rest, a ≤ x := by
      intro a ha
      exact List.rel_of_pairwise_cons (List.pairwise_append.mp hsorted).2.1 ha
    by_cases hcond : (p ++ x :: rest).sum ≤ 2 * (p.sum + x)
    · -- the loop returns `x`
      have hgo : get_n50_go (x :: rest) (p ++ x :: rest).sum p.sum = x := by
        simp only [get_n50_go]
        rw [if_pos hcond]
      rw [hgo]
      refine ⟨List.mem_cons_self x rest, ?_, ?_⟩
      · -- the elements ≥ x include all of p and x itself
        have hfp : p.filter (fun y => decide (x ≤ y)) = p := by
          rw [List.filter_eq_self]
          intro a ha
          exact decide_eq_true (hp_ge a ha x (List.mem_cons_self x rest))
        have h1 : sumGE x (p ++ x :: rest) = p.sum + (x + sumGE x rest) := by
          rw [sumGE_append]
          simp [sumGE, hfp, List.filter_cons]
        rw [h1]
        have := sumGE_le_sum x rest
        omega
      · -- no strictly larger y reaches half the total
        intro y _ hy
        have hfx : (x :: rest).filter (fun z => decide (y ≤ z)) = [] := by
          rw [List.filter_eq_nil_iff]
          intro a ha
          rcases List.mem_cons.mp ha with h | h
          · subst h; simpa using Nat.not_le.mpr hy
          · have : a ≤ x := hrest_le a h
            simpa using Nat.not_le.mpr (lt_of_le_of_lt this hy)
        have h2 : sumGE y (p ++ x :: rest) = sumGE y p := by
          rw [sumGE_append]
          simp [sumGE, hfx]
        have h3 : sumGE y p ≤ p.sum := sumGE_le_sum y p
        rw [h2]
        omega
    · -- the loop moves on to `rest` with `bases_so_far = p.sum + x`
      have hgo : get_n50_go (x :: rest) (p ++ x :: rest).sum p.sum
          = get_n50_go rest (p ++ x :: rest).sum (p.sum + x) := by
        simp only [get_n50_go]
        rw [if_neg hcond]
      have hsum_cons : (p ++ x :: rest).sum = p.sum + (x + rest.sum) := by
        simp [List.sum_append]
      have hrest_ne : rest ≠ [] := by
        intro h
        subst h
        simp [List.sum_append] at hcond hacc
        omega
      have hassoc : p ++ x :: rest = (p ++ [x]) ++ rest := by
        simp
      have hsorted' : List.Pairwise (· ≥ ·) ((p ++ [x]) ++ rest) := by
        rwa [← hassoc]
      have hacc' : 2 * (p ++ [x]).sum < ((p ++ [x]) ++ rest).sum := by
        rw [← hassoc, hsum_cons]
        simp only [List.sum_append, List.sum_cons, List.sum_nil]
        omega
      have ih := get_n50_go_spec rest (p ++ [x]) hsorted' hrest_ne hacc'
      have hsum_eq : ((p ++ [x]) ++ rest).sum = (p ++ x :: rest).sum := by
        rw [← hassoc]
      have hpsum : (p ++ [x]).sum = p.sum + x := by
        simp
      rw [hgo]
      rw [hsum_eq, hpsum] at ih
      obtain ⟨ih1, ih2, ih3⟩ := ih
      rw [← hassoc] at ih2 ih3
      refine ⟨List.mem_cons_of_mem x ih1, ih2, ih3⟩

/-- Positivity of a sum over a nonempty list of positive naturals. -/
lemma sum_pos_of_pos : ∀ (l : List ℕ), (∀ x ∈ l, 0 < x) → l ≠ [] → 0 < l.sum
  | [], _, hl => absurd rfl hl
  | x :: xs, hpos, _ => by
    have := hpos x (List.mem_cons_self x xs)
    simp only [List.sum_cons]
    omega

lemma sumGE_perm {l₁ l₂ : List ℕ} (h : l₁.Perm l₂) (k : ℕ) :
    sumGE k l₁ = sumGE k l₂ :=
  (h.filter _).sum_eq

/-- C1: for every multiset of positive naturals, `get_n50` returns a length
present in the input whose "sum of all elements ≥ it" is at least half the
total sum, no strictly longer element has that property, `get_n50 [] = 0`,
and `get_n50 [x] = x`. -/
theorem get_n50_correct (l : List ℕ) (hpos : ∀ x ∈ l, 0 < x) :
    (l = [] → get_n50 l = 0) ∧
    (∀ x, l = [x] → get_n50 l = x) ∧
    (l ≠ [] →
      get_n50 l ∈ l ∧
      l.sum ≤ 2 * sumGE (get_n50 l) l ∧
      ∀ y ∈ l, get_n50 l < y → 2 * sumGE y l < l.sum) := by
  refine ⟨?_, ?_, ?_⟩
  · rintro rfl
    rfl
  · rintro x rfl
    show get_n50_go _ _ _ = x
    have hs : List.insertionSort (· ≥ ·) [x] = [x] := rfl
    rw [hs]
    simp only [List.sum_cons, List.sum_nil, get_n50_go]
    rw [if_pos (by omega)]
  · intro hne
    set s := l.insertionSort (· ≥ ·) with hs_def
    have hperm : s.Perm l := List.perm_insertionSort _ l
    have hsorted : List.Pairwise (· ≥ ·) s := List.sorted_insertionSort _ l
    have hsum : s.sum = l.sum := hperm.sum_eq
    have hsne : s ≠ [] := by
      intro h
      rw [h] at hperm
      exact hne (hperm.symm.eq_nil)
    have hpos' : 0 < l.sum := sum_pos_of_pos l hpos hne
    have hspec := get_n50_go_spec s [] (by simpa using hsorted) hsne
      (by simpa [hsum] using hpos')
    simp only [List.nil_append, List.sum_nil] at hspec
    have hval : get_n50 l = get_n50_go s s.sum 0 := rfl
    obtain ⟨h1, h2, h3⟩ := hspec
    rw [hval]
    refine ⟨hperm.mem_iff.mp h1, ?_, ?_⟩
    · rw [← hsum, ← sumGE_perm hperm]
      exact h2
    · intro y hy hlt
      rw [← hsum, ← sumGE_perm hperm]
      exact h3 y (hperm.mem_iff.mpr hy) hlt

/-- Witness for C1 at the concrete input `[50, 40, 10]`. -/
theorem get_n50_correct_witness :
    (∀ x ∈ ([50, 40, 10] : List ℕ), 0 < x) ∧
    (get_n50 [50, 40, 10] ∈ ([50, 40, 10] : List ℕ) ∧
     ([50, 40, 10] : List ℕ).sum ≤ 2 * sumGE (get_n50 [50, 40, 10]) [50, 40, 10] ∧
     ∀ y ∈ ([50, 40, 10] : List ℕ), get_n50 [50, 40, 10] < y →
       2 * sumGE y [50, 40, 10] < ([50, 40, 10] : List ℕ).sum) :=
  ⟨by decide, (get_n50_correct [50, 40, 10] (by decide)).2.2 (by decide)⟩

/-! ## Input files, the processed ledger, and batch selection
(basecall.py lines 151-173)

```
def check_for_reads(batch_size, in_dir, out_dir):
    all_fast5_files = [x.resolve() for x in in_dir.glob('**/*.fast5')]
    already_basecalled = load_already_basecalled(out_dir)
    new_fast5_files = [f for f in all_fast5_files if f.name not in already_basecalled]
    return sorted(f for f in new_fast5_files)[:batch_size], all_fast5_files
```

The filesystem scan is abstracted into the list `all_fast5_files`; the ledger
file `basecalled_filenames` is the list of its lines. -/

/-- A discovered input file: its resolved absolute path and its base name. -/
structure Fast5File where
  path : String
  name : String
deriving DecidableEq, Repr

/-- The order in which Python's `sorted` arranges resolved POSIX paths:
lexicographic on the path string. -/
def pathLe (a b : Fast5File) : Prop := strLeB a.path.data b.path.data = true

instance : DecidableRel pathLe := fun _ _ => inferInstanceAs (Decidable (_ = true))

lemma strLeB_total : ∀ a b, strLeB a b = true ∨ strLeB b a = true
  | [], _ => Or.inl rfl
  | _ :: _, [] => Or.inr rfl
  | a :: as, b :: bs => by
    by_cases hab : a < b
    · left; simp [strLeB, hab]
    · by_cases hba : b < a
      · right; simp [strLeB, hba]
      · have hab' : a = b := le_antisymm (not_lt.mp hba) (not_lt.mp hab)
        subst hab'
        rcases strLeB_total as bs with ih | ih
        · left; simp [strLeB, lt_irrefl, ih]
        · right; simp [strLeB, lt_irrefl, ih]

lemma strLeB_trans : ∀ a b c, strLeB a b = true → strLeB b c = true → strLeB a c = true
  | [], _, _ => by intro _ _; rfl
  | _ :: _, [], _ => by intro h _; simp [strLeB] at h
  | _ :: _, _ :: _, [] => by intro _ h; simp [strLeB] at h
  | a :: as, b :: bs, c :: cs => by
    intro h1 h2
    simp only [strLeB] at h1 h2 ⊢
    rcases lt_trichotomy a b with hab | hab | hab
    · rcases lt_trichotomy b c with hbc | hbc | hbc
      · rw [if_pos (lt_trans hab hbc)]
      · subst hbc
        rw [if_pos hab]
      · rw [if_neg (lt_asymm hbc), if_pos hbc] at h2
        exact absurd h2 (by simp)
    · subst hab
      rcases lt_trichotomy a c with hac | hac | hac
      · rw [if_pos hac]
      · subst hac
        rw [if_neg (lt_irrefl _)] at h1 h2 ⊢
        rw [if_neg (lt_irrefl _)] at h1 h2 ⊢
        exact strLeB_trans as bs cs h1 h2
      · rw [if_neg (lt_asymm hac), if_pos hac] at h2
        exact absurd h2 (by simp)
    · rw [if_neg (lt_asymm hab), if_pos hab] at h1
      exact absurd h1 (by simp)

instance : IsTotal Fast5File pathLe := ⟨fun a b => strLeB_total a.path.data b.path.data⟩

instance : IsTrans Fast5File pathLe :=
  ⟨fun _ _ _ h1 h2 => strLeB_trans _ _ _ h1 h2⟩

/-- `load_already_basecalled` (lines 158-165): read the ledger file, strip
each line, and collect the results into a set (modelled as a deduplicated
list; membership is what matters). -/
def load_already_basecalled (ledger_lines : List String) : List String :=
  (ledger_lines.map pyStrip).dedup

/-- `add_to_already_basecalled` (lines 168-173): append one line per base
name to the ledger file. -/
def add_to_already_basecalled (fast5s : List Fast5File) (ledger_lines : List String) :
    List String :=
  ledger_lines ++ fast5s.map (fun f => f.name)

/-- `check_for_reads` (lines 151-155): keep the files whose base name is not
in the ledger, sort them by path, truncate to the batch size; also return the
unfiltered snapshot. -/
def check_for_reads (batch_size : ℕ) (all_fast5_files : List Fast5File)
    (ledger_lines : List String) : List Fast5File × List Fast5File :=
  let already_basecalled := load_already_basecalled ledger_lines
  let new_fast5_files :=
    all_fast5_files.filter (fun f => decide (f.name ∉ already_basecalled))
  ((new_fast5_files.insertionSort pathLe).take batch_size, all_fast5_files)

/-- The three files of the spec's batch-selection scenario. -/
def file_a : Fast5File := ⟨"/data/run/a.fast5", "a.fast5"⟩

def file_b : Fast5File := ⟨"/data/run/b.fast5", "b.fast5"⟩

def file_c : Fast5File := ⟨"/data/run/c.fast5", "c.fast5"⟩

def scenario_files : List Fast5File := [file_c, file_a, file_b]

/-- C2: the selected batch consists of non-ledgered files only, is sorted by
path, has length `min batch_size (number of non-ledgered files)`, contains
the path-smallest non-ledgered files, and the snapshot is returned unchanged;
determinism is inherent (the embedding is a pure function of its inputs).
The spec's scenario (empty ledger, 3 files, batch size 2, then a second scan
after the ledger update) is included at the end. -/
theorem check_for_reads_correct (batch_size : ℕ) (all_fast5_files : List Fast5File)
    (ledger_lines : List String) :
    (∀ f ∈ (check_for_reads batch_size all_fast5_files ledger_lines).1,
       f ∈ all_fast5_files ∧ f.name ∉ load_already_basecalled ledger_lines) ∧
    List.Sorted pathLe (check_for_reads batch_size all_fast5_files ledger_lines).1 ∧
    (check_for_reads batch_size all_fast5_files ledger_lines).1.length =
      min batch_size (all_fast5_files.filter
        (fun f => decide (f.name ∉ load_already_basecalled ledger_lines))).length ∧
    (∀ f ∈ all_fast5_files, f.name ∉ load_already_basecalled ledger_lines →
       f ∉ (check_for_reads batch_size all_fast5_files ledger_lines).1 →
       ∀ g ∈ (check_for_reads batch_size all_fast5_files ledger_lines).1, pathLe g f) ∧
    (check_for_reads batch_size all_fast5_files ledger_lines).2 = all_fast5_files ∧
    (check_for_reads 2 scenario_files []).1 = [file_a, file_b] ∧
    (check_for_reads 2 scenario_files
       (add_to_already_basecalled [file_a, file_b] [])).1 = [file_c] := by
  set new_files := all_fast5_files.filter
    (fun f => decide (f.name ∉ load_already_basecalled ledger_lines)) with hnew
  set s := new_files.insertionSort pathLe with hs
  have hperm : s.Perm new_files := List.perm_insertionSort _ _
  have hsorted : List.Sorted pathLe s := List.sorted_insertionSort _ _
  have hbatch : (check_for_reads batch_size all_fast5_files ledger_lines).1 =
      s.take batch_size := rfl
  refine ⟨?_, ?_, ?_, ?_, rfl, by decide, by decide⟩
  · intro f hf
    rw [hbatch] at hf
    have hfs : f ∈ s := (List.take_sublist _ _).subset hf
    have hfn : f ∈ new_files := hperm.mem_iff.mp hfs
    have := List.mem_filter.mp hfn
    exact ⟨this.1, of_decide_eq_true this.2⟩
  · rw [hbatch]
    exact hsorted.sublist (List.take_sublist _ _)
  · rw [hbatch, List.length_take, hperm.length_eq]
  · intro f hfall hfledger hfbatch g hg
    rw [hbatch] at hfbatch hg
    have hfs : f ∈ s := hperm.mem_iff.mpr
      (List.mem_filter.mpr ⟨hfall, decide_eq_true hfledger⟩)
    have hsplit : s = s.take batch_size ++ s.drop batch_size :=
      (List.take_append_drop batch_size s).symm
    have hfdrop : f ∈ s.drop batch_size := by
      rw [hsplit] at hfs
      rcases List.mem_append.mp hfs with h | h
      · exact absurd h hfbatch
      · exact h
    have hpw : List.Pairwise pathLe (s.take batch_size ++ s.drop batch_size) := by
      rw [← hsplit]
      exact hsorted
    exact (List.pairwise_append.mp hpw).2.2 g hg f hfdrop

/-- Witness for C2 at the spec scenario's input. -/
theorem check_for_reads_correct_witness :
    (∀ f ∈ (check_for_reads 2 scenario_files []).1,
       f ∈ scenario_files ∧ f.name ∉ load_already_basecalled []) ∧
    List.Sorted pathLe (check_for_reads 2 scenario_files []).1 :=
  ⟨(check_for_reads_correct 2 scenario_files []).1,
   (check_for_reads_correct 2 scenario_files []).2.1⟩

/-- C7: duplicate ledger appends do not change batch selection (the ledger is
loaded as a set), and a file whose identifier is in the ledger is never
selected. -/
theorem ledger_growth_idempotent (batch_size : ℕ) (all_fast5_files : List Fast5File)
    (ledger_lines : List String) (dup : String) :
    check_for_reads batch_size all_fast5_files (ledger_lines ++ [dup, dup]) =
      check_for_reads batch_size all_fast5_files (ledger_lines ++ [dup]) ∧
    (∀ f ∈ all_fast5_files, f.name ∈ load_already_basecalled ledger_lines →
       f ∉ (check_for_reads batch_size all_fast5_files ledger_lines).1) := by
  constructor
  · have hmem : ∀ t : String, t ∈ load_already_basecalled (ledger_lines ++ [dup, dup]) ↔
        t ∈ load_already_basecalled (ledger_lines ++ [dup]) := by
      intro t
      simp only [load_already_basecalled, List.mem_dedup, List.map_append, List.mem_append]
      simp
    have hfil : all_fast5_files.filter
        (fun f => decide (f.name ∉ load_already_basecalled (ledger_lines ++ [dup, dup]))) =
        all_fast5_files.filter
        (fun f => decide (f.name ∉ load_already_basecalled (ledger_lines ++ [dup]))) :=
      List.filter_congr (fun f _ => decide_eq_decide.mpr (not_congr (hmem f.name)))
    simp only [check_for_reads]
    rw [hfil]
  · intro f hfall hfled hfbatch
    have hfs : f ∈ (all_fast5_files.filter
        (fun g => decide (g.name ∉ load_already_basecalled ledger_lines))).insertionSort
          pathLe :=
      (List.take_sublist _ _).subset hfbatch
    have hfn := (List.perm_insertionSort _ _).mem_iff.mp hfs
    exact of_decide_eq_true (List.mem_filter.mp hfn).2 hfled

/-- Witness for C7: a concrete duplicate append, and a concrete ledgered file
that is never selected again. -/
theorem ledger_growth_idempotent_witness :
    check_for_reads 2 scenario_files (["a.fast5"] ++ ["b.fast5", "b.fast5"]) =
      check_for_reads 2 scenario_files (["a.fast5"] ++ ["b.fast5"]) ∧
    file_a ∉ (check_for_reads 2 scenario_files ["a.fast5"]).1 :=
  ⟨(ledger_growth_idempotent 2 scenario_files ["a.fast5"] "b.fast5").1,
   (ledger_growth_idempotent 2 scenario_files ["a.fast5"] "b.fast5").2 file_a
     (by decide) (by decide)⟩

/-! ## Merging tabular summary fragments (basecall.py lines 586-593)

```
def merge_summary(source_filename, destination_filename):
    include_header = not destination_filename.is_file()
    with open(str(source_filename), 'rt') as source:
        with open(str(destination_filename), 'at') as destination:
            for line in source:
                if not include_header and line.startswith('filename'):
                    continue
                destination.write(line)
```

A destination that does not yet exist is `none`; merging always produces an
existing destination. -/

/-- `merge_summary`: append the source's lines to the destination; when the
destination already exists, skip every line that starts with `filename`. -/
def merge_summary (source : List String) (destination : Option (List String)) :
    List String :=
  match destination with
  | none => source
  | some existing => existing ++ source.filter (fun line => ! pyStartswith line "filename")

/-- Number of header rows (lines starting with `filename`) in a file. -/
def header_row_count (lines : List String) : ℕ :=
  (lines.filter (fun line => pyStartswith line "filename")).length

/-- Merging a sequence of fragment files, one after the other, into an
initially nonexistent destination (the `for filename in temp_out.glob(...)`
loop of `merge_results`, possibly across several batches). -/
def merge_summary_all (fragments : List (List String)) : Option (List String) :=
  fragments.foldl (fun destination source => some (merge_summary source destination)) none

lemma header_row_count_merge_some (source existing : List String) :
    header_row_count (merge_summary source (some existing)) = header_row_count existing := by
  have hnil : (source.filter (fun line => ! pyStartswith line "filename")).filter
      (fun line => pyStartswith line "filename") = [] := by
    rw [List.filter_eq_nil_iff]
    intro a ha
    have := (List.mem_filter.mp ha).2
    simp only [Bool.not_eq_true'] at this
    simp [this]
  simp [merge_summary, header_row_count, List.filter_append, hnil]

lemma merge_summary_all_aux :
    ∀ (fragments : List (List String)) (acc : List String), header_row_count acc = 1 →
      ∃ out, fragments.foldl (fun destination source => some (merge_summary source destination))
        (some acc) = some out ∧ header_row_count out = 1
  | [], acc, hacc => ⟨acc, rfl, hacc⟩
  | s :: rest, acc, hacc => by
    have hstep : header_row_count (merge_summary s (some acc)) = 1 := by
      rw [header_row_count_merge_some]
      exact hacc
    simpa using merge_summary_all_aux rest (merge_summary s (some acc)) hstep

/-- C3: the destination's header is written exactly once — on first creation
the source is copied verbatim, later merges never add a header row, and
folding any nonempty sequence of one-header fragments yields a destination
with exactly one header row. -/
theorem merge_summary_single_header (fragments : List (List String))
    (hne : fragments ≠ []) (hone : ∀ s ∈ fragments, header_row_count s = 1) :
    (∀ s, merge_summary s none = s) ∧
    (∀ s existing, header_row_count (merge_summary s (some existing)) =
      header_row_count existing) ∧
    ∃ out, merge_summary_all fragments = some out ∧ header_row_count out = 1 := by
  refine ⟨fun _ => rfl, header_row_count_merge_some, ?_⟩
  match fragments, hne with
  | s :: rest, _ =>
    have hs : header_row_count s = 1 := hone s (List.mem_cons_self s rest)
    have : merge_summary_all (s :: rest) =
        rest.foldl (fun destination source => some (merge_summary source destination))
          (some s) := rfl
    rw [this]
    exact merge_summary_all_aux rest s hs

/-- Witness for C3: two one-header fragments merge to one header row. -/
theorem merge_summary_single_header_witness :
    (∀ s ∈ [["filename\tpasses", "read1.fast5\t4011"],
            ["filename\tpasses", "read2.fast5\t2099"]], header_row_count s = 1) ∧
    ∃ out, merge_summary_all [["filename\tpasses", "read1.fast5\t4011"],
      ["filename\tpasses", "read2.fast5\t2099"]] = some out ∧ header_row_count out = 1 :=
  ⟨by decide, (merge_summary_single_header _ (by decide) (by decide)).2.2⟩

/-! ## Reading the consolidated summary (basecall.py lines 371-383)

```
def read_sequencing_summary(out_dir, columns):
    summary_filename = str(out_dir / 'sequencing_summary.txt')
    with open(summary_filename, 'rt') as summary:
        headers = summary.readline().strip().split('\t')
    column_numbers = [headers.index(x) for x in columns]
    data = []
    with open(summary_filename, 'rt') as summary:
        for line in summary:
            if line.startswith('filename'):
                continue
            parts = line.strip().split('\t')
            data.append([parts[i] for i in column_numbers])
    return data
```
-/

/-- Python list comprehension over a fallible body (an exception aborts the
whole comprehension). -/
def mapE {α β : Type} (f : α → Except PyErr β) : List α → Except PyErr (List β)
  | [] => .ok []
  | a :: as => do
    let b ← f a
    let bs ← mapE f as
    .ok (b :: bs)

/-- `read_sequencing_summary` on the summary file's lines: resolve the
requested column indices from the first line (`ValueError` if a column is
missing), then extract those columns from every line that does not start
with `filename` (`IndexError` on a short row). -/
def read_sequencing_summary (summary_lines : List String) (columns : List String) :
    Except PyErr (List (List String)) := do
  let headers := pySplit '\t' (pyStripChars (summary_lines.headD "").data)
  let column_numbers ← mapE (fun c =>
    match headers.findIdx? (fun h => decide (h = c.data)) with
    | some i => Except.ok i
    | none => Except.error PyErr.valueError) columns
  mapE (fun line =>
      mapE (fun i =>
        match (pySplit '\t' (pyStripChars line.data))[i]? with
        | some part => Except.ok (String.mk part)
        | none => Except.error PyErr.indexError) column_numbers)
    (summary_lines.filter (fun line => ! pyStartswith line "filename"))

lemma mapE_ok_length {α β : Type} (f : α → Except PyErr β) :
    ∀ (l : List α) (out : List β), mapE f l = .ok out → out.length = l.length
  | [], out => by
    intro h
    simp only [mapE] at h
    cases h
    rfl
  | a :: as, out => by
    intro h
    simp only [mapE, bind, Except.bind] at h
    cases hfa : f a with
    | error e => rw [hfa] at h; cases h
    | ok b =>
      rw [hfa] at h
      cases hrec : mapE f as with
      | error e => rw [hrec] at h; cases h
      | ok bs =>
        rw [hrec] at h
        cases h
        simp [mapE_ok_length f as bs hrec]

/-- C9: header rows are identified purely by the leading text `filename`.
A data row whose first field begins with `filename` is silently dropped when
its fragment is merged into an existing destination, and the statistics
reader skips every such line (the returned data has one entry per
non-`filename` line only).  Both behaviours are exhibited on concrete
inputs. -/
theorem header_detected_by_text_only :
    (∀ (existing source : List String) (line : String), line ∈ source →
       pyStartswith line "filename" = true →
       List.count line (merge_summary source (some existing)) = List.count line existing) ∧
    (∀ (summary_lines columns : List String) (out : List (List String)),
       read_sequencing_summary summary_lines columns = .ok out →
       out.length = (summary_lines.filter (fun l => ! pyStartswith l "filename")).length) ∧
    merge_summary ["filename\tpasses", "filename_odd.fast5\t17"]
      (some ["filename\tpasses"]) = ["filename\tpasses"] ∧
    read_sequencing_summary
      ["filename\tpasses", "filename_odd.fast5\t17", "read2.fast5\t9"] ["passes"] =
      .ok [["9"]] := by
  refine ⟨?_, ?_, by decide, by rfl⟩
  · intro existing source line hmem hline
    have hzero : List.count line
        (source.filter (fun l => ! pyStartswith l "filename")) = 0 := by
      rw [List.count_eq_zero]
      intro hcon
      have := (List.mem_filter.mp hcon).2
      rw [hline] at this
      exact absurd this (by simp)
    simp [merge_summary, List.count_append, hzero]
  · intro summary_lines columns out h
    simp only [read_sequencing_summary, bind, Except.bind] at h
    cases hcols : mapE (fun c =>
        match (pySplit '\t' (pyStripChars (summary_lines.headD "").data)).findIdx?
            (fun h => decide (h = c.data)) with
        | some i => Except.ok i
        | none => Except.error PyErr.valueError) columns with
    | error e => rw [hcols] at h; cases h
    | ok column_numbers =>
      rw [hcols] at h
      exact mapE_ok_length _ _ out h

/-- Witness for C9: the dropped data row, concretely. -/
theorem header_detected_by_text_only_witness :
    List.count "filename_odd.fast5\t17"
      (merge_summary ["filename\tpasses", "filename_odd.fast5\t17"]
        (some ["filename\tpasses"])) =
      List.count "filename_odd.fast5\t17" ["filename\tpasses"] :=
  header_detected_by_text_only.1 ["filename\tpasses"]
    ["filename\tpasses", "filename_odd.fast5\t17"] "filename_odd.fast5\t17"
    (by decide) (by decide)

/-! ## External invocation failure (basecall.py lines 194-203 and 519-533)

```
def basecall_reads(new_fast5s, barcodes, ...):
    ...
        execute_with_output(guppy_command)
        merge_results(temp_out, out_dir, barcodes)
    add_to_already_basecalled(new_fast5s, out_dir)
```

`execute_with_output` raises `CalledProcessError` on a non-zero return code,
so `merge_results` and the ledger append are skipped on that path.  The
on-disk state is modelled explicitly: `basecall_reads` returns the state the
output directory is left in, together with the exception (if any) that
propagates.  The `guppy_logs`/`guppy_telemetry` copies of `merge_results`
are plain file copies with no logic the claims touch and are elided. -/

/-- Output of one external-tool invocation: tabular summary fragments and
per-barcode sequence files (source path and content). -/
structure ResultFragment where
  summary_files : List (List String)
  fastq_files : List (String × List String)
deriving DecidableEq, Repr

/-- The durable output directory: the ledger file, the consolidated summary
(nonexistent before the first merge), and the per-category `.fastq` files
(filename and content). -/
structure OutState where
  ledger_lines : List String
  sequencing_summary : Option (List String)
  fastq : List (String × List String)
deriving DecidableEq, Repr

/-- `execute_with_output` (lines 519-533): raise `CalledProcessError` when
the subprocess exits non-zero. -/
def execute_with_output (returncode : ℤ) : Except PyErr Unit :=
  if returncode ≠ 0 then .error (.calledProcessError returncode) else .ok ()

/-- The `re.search(r'barcode\d\d', ...)` match at the head of the string. -/
def barcode_match_head (s : List Char) : Option (List Char) :=
  if "barcode".data.isPrefixOf s then
    match s.drop 7 with
    | d1 :: d2 :: _ =>
      if d1.isDigit && d2.isDigit then some ("barcode".data ++ [d1, d2]) else none
    | _ => none
  else none

/-- Leftmost `re.search(r'barcode\d\d', ...)` occurrence. -/
def re_search_barcode : List Char → Option (List Char)
  | [] => none
  | c :: cs =>
    match barcode_match_head (c :: cs) with
    | some m => some m
    | none => re_search_barcode cs

/-- `get_destination_filename` (lines 567-576), with `out_dir` elided: the
consolidated `.fastq` file a fragment's reads are appended to. -/
def get_destination_filename (barcodes : String) (source_filename : String) : String :=
  if barcodes = "none" then "reads.fastq"
  else
    match re_search_barcode source_filename.data with
    | some m => String.mk m ++ ".fastq"
    | none => "unclassified.fastq"

/-- Appending to a named file in the output directory, creating it if
needed (`open(..., 'at')`). -/
def append_file (fname : String) (content : List String) :
    List (String × List String) → List (String × List String)
  | [] => [(fname, content)]
  | (n, ls) :: rest =>
    if n = fname then (n, ls ++ content) :: rest
    else (n, ls) :: append_file fname content rest

/-- `merge_results` (lines 545-564) restricted to the summary and fastq
merges: fold every summary fragment into the consolidated summary and append
every fastq fragment to its per-category destination. -/
def merge_results (frag : ResultFragment) (barcodes : String) (st : OutState) : OutState :=
  let new_summary := frag.summary_files.foldl
    (fun destination source => some (merge_summary source destination))
    st.sequencing_summary
  let new_fastq := frag.fastq_files.foldl
    (fun files pf => append_file (get_destination_filename barcodes pf.1) pf.2 files)
    st.fastq
  { st with sequencing_summary := new_summary, fastq := new_fastq }

/-- `basecall_reads` (lines 194-203): invoke the tool, then merge results,
then append the batch to the ledger.  Returns the resulting on-disk state
and the exception that propagates, if any. -/
def basecall_reads (returncode : ℤ) (new_fast5s : List Fast5File)
    (frag : ResultFragment) (barcodes : String) (st : OutState) :
    OutState × Option PyErr :=
  match execute_with_output returncode with
  | .error e => (st, some e)
  | .ok () =>
    let merged := merge_results frag barcodes st
    ({ merged with
        ledger_lines := add_to_already_basecalled new_fast5s merged.ledger_lines }, none)

/-- C6: a non-zero exit from the external tool raises a hard error, and on
that path the output state is exactly the input state — the ledger is not
appended to and the consolidated outputs receive no fragment; a zero exit
completes with no error. -/
theorem basecall_failure_no_commit (returncode : ℤ) (new_fast5s : List Fast5File)
    (frag : ResultFragment) (barcodes : String) (st : OutState)
    (h : returncode ≠ 0) :
    basecall_reads returncode new_fast5s frag barcodes st =
      (st, some (.calledProcessError returncode)) ∧
    (basecall_reads returncode new_fast5s frag barcodes st).1.ledger_lines =
      st.ledger_lines ∧
    (basecall_reads returncode new_fast5s frag barcodes st).1.sequencing_summary =
      st.sequencing_summary ∧
    (basecall_reads returncode new_fast5s frag barcodes st).1.fastq = st.fastq ∧
    (basecall_reads 0 new_fast5s frag barcodes st).2 = none := by
  have hexec : execute_with_output returncode = .error (.calledProcessError returncode) := by
    simp [execute_with_output, h]
  have hexec0 : execute_with_output (0 : ℤ) = .ok () := by
    simp [execute_with_output]
  simp only [basecall_reads, hexec, hexec0]
  exact ⟨trivial, trivial, trivial, trivial, trivial⟩

/-- Witness for C6 at return code 1 and a concrete non-trivial state. -/
theorem basecall_failure_no_commit_witness :
    (1 : ℤ) ≠ 0 ∧
    basecall_reads 1 [file_a] ⟨[["filename\tx", "r\t1"]], [("barcode01.fastq", ["@r"])]⟩
      "native_1-12" ⟨["old.fast5"], some ["filename\tx"], []⟩ =
      (⟨["old.fast5"], some ["filename\tx"], []⟩, some (.calledProcessError 1)) :=
  ⟨by decide,
   (basecall_failure_no_commit 1 [file_a]
     ⟨[["filename\tx", "r\t1"]], [("barcode01.fastq", ["@r"])]⟩ "native_1-12"
     ⟨["old.fast5"], some ["filename\tx"], []⟩ (by decide)).1⟩

/-! ## Barcode distribution (basecall.py lines 303-338)

```
def barcode_distribution_summary(out_dir, barcode_kit):
    barcode_data = read_sequencing_summary(out_dir, ['sequence_length_template',
                                                     'barcode_arrangement'])
    first_barcode = int(barcode_kit.split('_')[-1].split('-')[0])
    last_barcode = int(barcode_kit.split('_')[-1].split('-')[1])
    barcode_names = ['barcode{:02}'.format(i) for i in range(first_barcode, last_barcode + 1)]
    barcode_names.append('unclassified')
    bases = {name: 0 for name in barcode_names}
    reads = {name: 0 for name in barcode_names}
    for length, name in barcode_data:
        length = int(length)
        bases[name] += length
        reads[name] += 1
    overall_total = sum(bases.values())
    ...
        bases_percent = 100.0 * bases[name] / overall_total
    ...
```

The already-parsed summary rows `(sequence_length, barcode_arrangement)` are
the input; `bases[name] += length` on an unknown `name` raises `KeyError`,
and `100.0 * bases[name] / overall_total` raises `ZeroDivisionError` when
the overall total is zero.  Dictionaries are association lists. -/

/-- Python `int()` of a string of decimal digits. -/
def digits_to_nat (s : List Char) : ℕ :=
  s.foldl (fun a c => a * 10 + (c.toNat - '0'.toNat)) 0

/-- `int(barcode_kit.split('_')[-1].split('-')[0])`. -/
def first_barcode (barcode_kit : String) : ℕ :=
  digits_to_nat ((pySplit '-' ((pySplit '_' barcode_kit.data).getLastD [])).headD [])

/-- `int(barcode_kit.split('_')[-1].split('-')[1])`. -/
def last_barcode (barcode_kit : String) : ℕ :=
  digits_to_nat ((pySplit '-' ((pySplit '_' barcode_kit.data).getLastD [])).getD 1 [])

/-- Decimal digits of a natural number (recursion on a fuel bound). -/
def natToCharsAux : ℕ → ℕ → List Char
  | 0, _ => []
  | fuel + 1, n =>
    if n < 10 then [Nat.digitChar n]
    else natToCharsAux fuel (n / 10) ++ [Nat.digitChar (n % 10)]

def natToChars (n : ℕ) : List Char := natToCharsAux (n + 1) n

/-- Python `'{:02}'.format(n)`: zero-pad to width 2. -/
def format02 (n : ℕ) : List Char :=
  if n < 10 then '0' :: natToChars n else natToChars n

/-- The kit's enumerated category labels plus `unclassified`. -/
def barcode_names (barcode_kit : String) : List String :=
  ((List.range' (first_barcode barcode_kit)
      (last_barcode barcode_kit + 1 - first_barcode barcode_kit)).map
    (fun i => String.mk ("barcode".data ++ format02 i))) ++ ["unclassified"]

/-- `{name: 0 for name in names}`. -/
def init_dict (names : List String) : List (String × ℕ) :=
  names.map (fun n => (n, 0))

/-- Assignment to an existing dictionary key. -/
def dict_set (key : String) (v : ℕ) : List (String × ℕ) → List (String × ℕ)
  | [] => []
  | (k, old) :: rest =>
    if k = key then (k, v) :: rest else (k, old) :: dict_set key v rest

def dict_values_sum (d : List (String × ℕ)) : ℕ := (d.map (fun e => e.2)).sum

/-- The `for length, name in barcode_data` loop: `bases[name] += length;
reads[name] += 1`, raising `KeyError` when `name` is not a key. -/
def barcode_tally_go : List (ℕ × String) → List (String × ℕ) → List (String × ℕ) →
    Except PyErr (List (String × ℕ) × List (String × ℕ))
  | [], bases, reads => .ok (bases, reads)
  | (length, name) :: rest, bases, reads =>
    match List.lookup name bases, List.lookup name reads with
    | some b, some r =>
      barcode_tally_go rest (dict_set name (b + length) bases) (dict_set name (r + 1) reads)
    | _, _ => .error (.keyError name)

def barcode_tally (names : List String) (barcode_data : List (ℕ × String)) :
    Except PyErr (List (String × ℕ) × List (String × ℕ)) :=
  barcode_tally_go barcode_data (init_dict names) (init_dict names)

/-- `barcode_distribution_summary`, producing the rows of
`barcode_distribution.tsv` (name, reads, bases, bases_percent, N50).  The
`bases_percent` division happens for the first row already, so a zero
overall total raises `ZeroDivisionError` before any row is produced. -/
def barcode_distribution_summary (barcode_kit : String)
    (barcode_data : List (ℕ × String)) :
    Except PyErr (List (String × ℕ × ℕ × ℚ × ℕ)) := do
  let names := barcode_names barcode_kit
  let (bases, reads) ← barcode_tally names barcode_data
  let overall_total := dict_values_sum bases
  if overall_total = 0 then .error .zeroDivisionError
  else .ok (names.map (fun name =>
    (name, (List.lookup name reads).getD 0, (List.lookup name bases).getD 0,
     (100 : ℚ) * (((List.lookup name bases).getD 0 : ℕ) : ℚ) / (overall_total : ℚ),
     get_n50 ((barcode_data.filter (fun row => decide (row.2 = name))).map
       (fun row => row.1)))))

lemma dict_set_keys (key : String) (v : ℕ) :
    ∀ d : List (String × ℕ), (dict_set key v d).map (fun e => e.1) = d.map (fun e => e.1)
  | [] => rfl
  | (k, old) :: rest => by
    by_cases h : k = key
    · simp [dict_set, h]
    · simp [dict_set, h, dict_set_keys key v rest]

lemma lookup_some_of_mem_keys (key : String) :
    ∀ d : List (String × ℕ), key ∈ d.map (fun e => e.1) → ∃ v, List.lookup key d = some v
  | [], h => by simp at h
  | (k, old) :: rest, h => by
    by_cases hk : key = k
    · exact ⟨old, by simp [List.lookup, hk]⟩
    · have : key ∈ rest.map (fun e => e.1) := by
        rcases List.mem_map.mp h with ⟨e, he, hke⟩
        rcases List.mem_cons.mp he with h1 | h1
        · subst h1; exact absurd hke.symm hk
        · exact List.mem_map.mpr ⟨e, h1, hke⟩
      have hbeq : (key == k) = false := beq_eq_false_iff_ne.mpr hk
      rcases lookup_some_of_mem_keys key rest this with ⟨v, hv⟩
      exact ⟨v, by simp [List.lookup, hbeq, hv]⟩

lemma barcode_tally_go_ok :
    ∀ (rows : List (ℕ × String)) (bases reads : List (String × ℕ)),
      (∀ row ∈ rows, row.2 ∈ bases.map (fun e => e.1)) →
      (∀ row ∈ rows, row.2 ∈ reads.map (fun e => e.1)) →
      ∃ t, barcode_tally_go rows bases reads = .ok t
  | [], bases, reads, _, _ => ⟨(bases, reads), rfl⟩
  | (length, name) :: rest, bases, reads, hb, hr => by
    rcases lookup_some_of_mem_keys name bases
      (hb (length, name) (List.mem_cons_self _ _)) with ⟨b, hbv⟩
    rcases lookup_some_of_mem_keys name reads
      (hr (length, name) (List.mem_cons_self _ _)) with ⟨r, hrv⟩
    have hb' : ∀ row ∈ rest, row.2 ∈ (dict_set name (b + length) bases).map (fun e => e.1) := by
      intro row hrow
      rw [dict_set_keys]
      exact hb row (List.mem_cons_of_mem _ hrow)
    have hr' : ∀ row ∈ rest, row.2 ∈ (dict_set name (r + 1) reads).map (fun e => e.1) := by
      intro row hrow
      rw [dict_set_keys]
      exact hr row (List.mem_cons_of_mem _ hrow)
    rcases barcode_tally_go_ok rest _ _ hb' hr' with ⟨t, ht⟩
    exact ⟨t, by simp [barcode_tally_go, hbv, hrv, ht]⟩

lemma dict_set_values_sum (key : String) (b add : ℕ) :
    ∀ d : List (String × ℕ), List.lookup key d = some b →
      dict_values_sum (dict_set key (b + add) d) = dict_values_sum d + add
  | [], h => by simp [List.lookup] at h
  | (k, old) :: rest, h => by
    by_cases hk : key = k
    · have : old = b := by
        simp [List.lookup, hk] at h
        omega
      subst this
      simp only [dict_set, if_pos hk.symm, dict_values_sum, List.map_cons, List.sum_cons]
      omega
    · have hbeq : (key == k) = false := beq_eq_false_iff_ne.mpr hk
      have hlook : List.lookup key rest = some b := by
        simpa [List.lookup, hbeq] using h
      have hrec := dict_set_values_sum key b add rest hlook
      have hne : ¬ k = key := fun hh => hk hh.symm
      simp only [dict_set, if_neg hne, dict_values_sum, List.map_cons, List.sum_cons] at *
      omega

lemma barcode_tally_go_sum :
    ∀ (rows : List (ℕ × String)) (bases reads : List (String × ℕ)) t,
      barcode_tally_go rows bases reads = .ok t →
      dict_values_sum t.1 = dict_values_sum bases + (rows.map (fun r => r.1)).sum
  | [], bases, reads, t, h => by
    simp only [barcode_tally_go] at h
    cases h
    simp
  | (length, name) :: rest, bases, reads, t, h => by
    simp only [barcode_tally_go] at h
    cases hbv : List.lookup name bases with
    | none => rw [hbv] at h; cases h
    | some b =>
      cases hrv : List.lookup name reads with
      | none => rw [hbv, hrv] at h; cases h
      | some r =>
        rw [hbv, hrv] at h
        have hrec := barcode_tally_go_sum rest _ _ t h
        rw [hrec, dict_set_values_sum name b length bases hbv]
        simp only [List.map_cons, List.sum_cons]
        omega

lemma init_dict_keys (names : List String) :
    (init_dict names).map (fun e => e.1) = names := by
  simp only [init_dict, List.map_map]
  exact List.map_id names

lemma init_dict_values_sum (names : List String) :
    dict_values_sum (init_dict names) = 0 := by
  simp [init_dict, dict_values_sum]
  induction names with
  | nil => rfl
  | cons n rest ih => simpa using ih

/-- C8: a summary row whose `barcode_arrangement` is outside the kit's
enumerated labels plus `unclassified` makes the barcode distribution fail
with a key-lookup error (concretely, `barcode13` under kit `native_1-12`);
if every row's label is in the enumerated set, the tally succeeds. -/
theorem barcode_label_outside_kit_fails :
    barcode_distribution_summary "native_1-12" [(100, "barcode13")] =
      .error (.keyError "barcode13") ∧
    (∀ (barcode_kit : String) (barcode_data : List (ℕ × String)),
       (∀ row ∈ barcode_data, row.2 ∈ barcode_names barcode_kit) →
       ∃ t, barcode_tally (barcode_names barcode_kit) barcode_data = .ok t) := by
  constructor
  · rfl
  · intro barcode_kit barcode_data hlabels
    exact barcode_tally_go_ok barcode_data _ _
      (by rw [init_dict_keys]; exact hlabels)
      (by rw [init_dict_keys]; exact hlabels)

/-- Witness for C8's general part: an in-kit data set tallies successfully. -/
theorem barcode_label_outside_kit_fails_witness :
    (∀ row ∈ ([(100, "barcode03"), (7, "unclassified")] : List (ℕ × String)),
       row.2 ∈ barcode_names "native_1-12") ∧
    ∃ t, barcode_tally (barcode_names "native_1-12")
      [(100, "barcode03"), (7, "unclassified")] = .ok t :=
  ⟨by decide, barcode_label_outside_kit_fails.2 "native_1-12"
    [(100, "barcode03"), (7, "unclassified")] (by decide)⟩

/-- C10: a zero overall base total makes the percentage computation fail
with a division-by-zero error: concretely for an empty summary body under
kit `native_1-12`, for rows that are all of length 0, and in general for any
all-zero-length data whose labels are in the kit. -/
theorem barcode_percent_div_zero :
    barcode_distribution_summary "native_1-12" [] = .error .zeroDivisionError ∧
    barcode_distribution_summary "native_1-12" [(0, "barcode01"), (0, "unclassified")] =
      .error .zeroDivisionError ∧
    (∀ (barcode_kit : String) (barcode_data : List (ℕ × String)),
       (∀ row ∈ barcode_data, row.2 ∈ barcode_names barcode_kit) →
       (∀ row ∈ barcode_data, row.1 = 0) →
       barcode_distribution_summary barcode_kit barcode_data =
         .error .zeroDivisionError) := by
  refine ⟨rfl, rfl, ?_⟩
  intro barcode_kit barcode_data hlabels hzero
  rcases barcode_label_outside_kit_fails.2 barcode_kit barcode_data hlabels with ⟨t, ht⟩
  have hsum : dict_values_sum t.1 = 0 := by
    have := barcode_tally_go_sum barcode_data _ _ t ht
    rw [init_dict_values_sum] at this
    have hz : (barcode_data.map (fun r => r.1)).sum = 0 := by
      apply List.sum_eq_zero
      intro x hx
      rcases List.mem_map.mp hx with ⟨row, hrow, hval⟩
      rw [← hval]
      exact hzero row hrow
    omega
  obtain ⟨bases, reads⟩ := t
  simp only [barcode_distribution_summary, bind, Except.bind, barcode_tally] at *
  rw [ht]
  simp [hsum]

/-- Witness for C10's general part at a concrete all-zero-length input. -/
theorem barcode_percent_div_zero_witness :
    (∀ row ∈ ([(0, "unclassified")] : List (ℕ × String)),
       row.2 ∈ barcode_names "native_1-12") ∧
    barcode_distribution_summary "native_1-12" [(0, "unclassified")] =
      .error .zeroDivisionError :=
  ⟨by decide, barcode_percent_div_zero.2.2 "native_1-12" [(0, "unclassified")]
    (by decide) (by decide)⟩

/-! ## Translocation speed windows (basecall.py lines 250-272)

```
    window_start, window_end = 0, time_window
    while window_start < max_time:
        window_data = [x for x in read_trans_speeds if window_start <= x[0] < window_end]
        window_count = len(window_data)
        if window_count > 0:
            median_speed = statistics.median([x[1] for x in window_data])
            median_qscore = statistics.median([x[2] for x in window_data])
        else:
            median_speed, median_qscore = '', ''
        ... write row (window_start, window_end, median_speed, median_qscore) ...
        window_start += time_window
        window_end += time_window
```

`read_trans_speeds` is the list of `(read_time, trans_speed, qscore)` triples
(elapsed minutes, length/duration, mean qscore) and `max_time` starts at
`0.0` and is the running maximum of the read times.  The `while` loop emits
one row per `window_start ∈ {0, W, 2W, ...}` with `window_start < max_time`,
i.e. `⌈max_time / W⌉` rows for `W > 0`; blank metric cells are `none`. -/

/-- `statistics.median` on rationals: middle of the sorted list, or the mean
of the two middle elements (never called on `[]` by the code; `0` default). -/
def median (l : List ℚ) : ℚ :=
  let s := l.insertionSort (· ≤ ·)
  if s.length % 2 = 1 then s.getD (s.length / 2) 0
  else (s.getD (s.length / 2 - 1) 0 + s.getD (s.length / 2) 0) / 2

/-- One row of `translocation_speed.tsv`. -/
structure TransRow where
  minute_window_start : ℕ
  minute_window_end : ℕ
  translocation_speed : Option ℚ
  mean_qscore : Option ℚ
deriving DecidableEq, Repr

/-- `max_time`: `0.0` maxed with every read time. -/
def max_time (reads : List (ℚ × ℚ × ℚ)) : ℚ :=
  reads.foldl (fun m r => max m r.1) 0

/-- The reads of one window: `window_start <= x[0] < window_end`. -/
def window_data (time_window : ℕ) (reads : List (ℚ × ℚ × ℚ)) (k : ℕ) :
    List (ℚ × ℚ × ℚ) :=
  reads.filter (fun r =>
    decide (((k * time_window : ℕ) : ℚ) ≤ r.1 ∧ r.1 < (((k + 1) * time_window : ℕ) : ℚ)))

/-- Number of `while` iterations: starts `0, W, 2W, ...` strictly below
`max_time`, which is `⌈max_time / W⌉` of them (for `W > 0`). -/
def num_windows (time_window : ℕ) (reads : List (ℚ × ℚ × ℚ)) : ℕ :=
  (Int.ceil (max_time reads / (time_window : ℚ))).toNat

/-- The row emitted for the `k`-th window. -/
def mk_trans_row (time_window : ℕ) (reads : List (ℚ × ℚ × ℚ)) (k : ℕ) : TransRow :=
  let wd := window_data time_window reads k
  { minute_window_start := k * time_window
    minute_window_end := (k + 1) * time_window
    translocation_speed :=
      if 0 < wd.length then some (median (wd.map (fun r => r.2.1))) else none
    mean_qscore :=
      if 0 < wd.length then some (median (wd.map (fun r => r.2.2))) else none }

/-- The full list of rows written to `translocation_speed.tsv`. -/
def translocation_rows (time_window : ℕ) (reads : List (ℚ × ℚ × ℚ)) : List TransRow :=
  (List.range (num_windows time_window reads)).map (mk_trans_row time_window reads)

/-- How many emitted windows contain elapsed time `t`. -/
def window_count_containing (time_window : ℕ) (reads : List (ℚ × ℚ × ℚ)) (t : ℚ) : ℕ :=
  ((translocation_rows time_window reads).filter (fun row =>
    decide ((row.minute_window_start : ℚ) ≤ t ∧ t < (row.minute_window_end : ℚ)))).length

lemma lt_num_windows_iff {time_window : ℕ} (hW : 0 < time_window)
    (reads : List (ℚ × ℚ × ℚ)) (k : ℕ) :
    k < num_windows time_window reads ↔
      ((k * time_window : ℕ) : ℚ) < max_time reads := by
  rw [num_windows, Int.lt_toNat, Int.lt_ceil]
  push_cast
  rw [lt_div_iff₀ (by exact_mod_cast hW)]

lemma in_window_iff {time_window : ℕ} (hW : 0 < time_window) {t : ℚ} (ht : 0 ≤ t)
    (k : ℕ) :
    (((k * time_window : ℕ) : ℚ) ≤ t ∧ t < (((k + 1) * time_window : ℕ) : ℚ)) ↔
      k = ⌊t / (time_window : ℚ)⌋₊ := by
  have hWQ : (0 : ℚ) < (time_window : ℚ) := by exact_mod_cast hW
  constructor
  · rintro ⟨h1, h2⟩
    symm
    rw [Nat.floor_eq_iff (div_nonneg ht (le_of_lt hWQ))]
    constructor
    · rw [le_div_iff₀ hWQ]
      push_cast at h1 ⊢
      linarith
    · rw [div_lt_iff₀ hWQ]
      push_cast at h2 ⊢
      linarith
  · rintro rfl
    set k := ⌊t / (time_window : ℚ)⌋₊ with hk
    constructor
    · have := Nat.floor_le (div_nonneg ht (le_of_lt hWQ)) (α := ℚ) (a := t / time_window)
      rw [le_div_iff₀ hWQ] at this
      push_cast
      linarith
    · have := Nat.lt_floor_add_one (t / (time_window : ℚ))
      rw [div_lt_iff₀ hWQ] at this
      push_cast
      linarith

lemma length_filter_map_eq {α β : Type} (f : α → β) (p : β → Bool) :
    ∀ l : List α, ((l.map f).filter p).length = (l.filter (fun a => p (f a))).length
  | [] => rfl
  | a :: as => by
    by_cases h : p (f a)
    · simp [List.filter_cons, h, length_filter_map_eq f p as]
    · simp only [List.map_cons, List.filter_cons, h, Bool.false_eq_true, if_neg]
      exact length_filter_map_eq f p as

lemma filter_eq_range : ∀ (n a : ℕ),
    (List.range n).filter (fun k => decide (k = a)) = if a < n then [a] else []
  | 0, a => by simp
  | n + 1, a => by
    rw [List.range_succ, List.filter_append, filter_eq_range n a]
    rcases lt_trichotomy a n with h | h | h
    · have hne : ¬ n = a := fun hh => absurd hh.symm (Nat.ne_of_lt h)
      simp [h, Nat.lt_succ_of_lt h, hne]
    · subst h
      simp [lt_irrefl, Nat.lt_succ_self]
    · have hne : ¬ n = a := Nat.ne_of_lt h
      have h1 : ¬ a < n := Nat.not_lt.mpr (le_of_lt h)
      have h2 : ¬ a < n + 1 := Nat.not_lt.mpr h
      simp [h1, h2, hne]

/-- The core counting fact: elapsed time `t` lies in exactly one emitted
window when its floor window was emitted, and in none otherwise. -/
lemma window_count_eq {time_window : ℕ} (hW : 0 < time_window)
    (reads : List (ℚ × ℚ × ℚ)) {t : ℚ} (ht : 0 ≤ t) :
    window_count_containing time_window reads t =
      if ⌊t / (time_window : ℚ)⌋₊ < num_windows time_window reads then 1 else 0 := by
  rw [window_count_containing, translocation_rows, length_filter_map_eq]
  have hcongr : (List.range (num_windows time_window reads)).filter
      (fun k => decide (((mk_trans_row time_window reads k).minute_window_start : ℚ) ≤ t ∧
        t < ((mk_trans_row time_window reads k).minute_window_end : ℚ))) =
      (List.range (num_windows time_window reads)).filter
      (fun k => decide (k = ⌊t / (time_window : ℚ)⌋₊)) := by
    apply List.filter_congr
    intro k _
    apply decide_eq_decide.mpr
    have hstart : (mk_trans_row time_window reads k).minute_window_start = k * time_window :=
      rfl
    have hend : (mk_trans_row time_window reads k).minute_window_end =
        (k + 1) * time_window := rfl
    rw [hstart, hend]
    exact in_window_iff hW ht k
  rw [hcongr, filter_eq_range]
  by_cases h : ⌊t / (time_window : ℚ)⌋₊ < num_windows time_window reads
  · simp [h]
  · simp [h]

/-- C4 counterexample: with window width 60 minutes and a single read at
elapsed time 0 (speed 9/2, qscore 10), `max_time` is 0, the `while` loop
runs zero times, no window row is emitted at all, and the read is counted in
zero windows — not in exactly one as claimed. -/
theorem window_partition_counterexample :
    translocation_rows 60 [(0, 9/2, 10)] = [] ∧
    window_count_containing 60 [(0, 9/2, 10)] 0 = 0 := by
  have hmax : max_time [(0, 9/2, 10)] = 0 := by
    simp [max_time]
  have hn : num_windows 60 [(0, 9/2, 10)] = 0 := by
    rw [num_windows, hmax]
    norm_num
  constructor
  · rw [translocation_rows, hn]
    rfl
  · rw [window_count_containing, translocation_rows, hn]
    rfl

/-- C4 amended: every read whose floor window start
`⌊t/W⌋ * W` lies strictly below `max_time` is counted in exactly one emitted
window, namely that floor window; a read whose floor window start is not
below `max_time` (possible only for a read at the maximal elapsed time
falling exactly on a window boundary, as in the counterexample) is counted
in no window; and every window start below `max_time` is emitted even when
empty, with blank (`none`) speed and qscore cells. -/
theorem window_partition_amended (time_window : ℕ) (reads : List (ℚ × ℚ × ℚ))
    (hW : 0 < time_window) (hpos : ∀ r ∈ reads, 0 ≤ r.1) :
    (∀ r ∈ reads, ((⌊r.1 / (time_window : ℚ)⌋₊ * time_window : ℕ) : ℚ) <
         max_time reads →
       window_count_containing time_window reads r.1 = 1 ∧
       mk_trans_row time_window reads ⌊r.1 / (time_window : ℚ)⌋₊ ∈
         translocation_rows time_window reads) ∧
    (∀ r ∈ reads, ¬ (((⌊r.1 / (time_window : ℚ)⌋₊ * time_window : ℕ) : ℚ) <
         max_time reads) →
       window_count_containing time_window reads r.1 = 0) ∧
    (∀ k : ℕ, ((k * time_window : ℕ) : ℚ) < max_time reads →
       mk_trans_row time_window reads k ∈ translocation_rows time_window reads ∧
       (mk_trans_row time_window reads k).minute_window_start = k * time_window ∧
       (mk_trans_row time_window reads k).minute_window_end = (k + 1) * time_window ∧
       (window_data time_window reads k = [] →
         (mk_trans_row time_window reads k).translocation_speed = none ∧
         (mk_trans_row time_window reads k).mean_qscore = none)) := by
  refine ⟨?_, ?_, ?_⟩
  · intro r hr hfl
    have hk : ⌊r.1 / (time_window : ℚ)⌋₊ < num_windows time_window reads :=
      (lt_num_windows_iff hW reads _).mpr hfl
    refine ⟨?_, ?_⟩
    · rw [window_count_eq hW reads (hpos r hr), if_pos hk]
    · exact List.mem_map.mpr ⟨_, List.mem_range.mpr hk, rfl⟩
  · intro r hr hfl
    have hk : ¬ ⌊r.1 / (time_window : ℚ)⌋₊ < num_windows time_window reads :=
      fun hcon => hfl ((lt_num_windows_iff hW reads _).mp hcon)
    rw [window_count_eq hW reads (hpos r hr), if_neg hk]
  · intro k hkW
    have hk : k < num_windows time_window reads :=
      (lt_num_windows_iff hW reads _).mpr hkW
    refine ⟨List.mem_map.mpr ⟨_, List.mem_range.mpr hk, rfl⟩, rfl, rfl, ?_⟩
    intro hempty
    constructor
    · show (if 0 < (window_data time_window reads k).length then _ else none) = none
      rw [hempty]
      rfl
    · show (if 0 < (window_data time_window reads k).length then _ else none) = none
      rw [hempty]
      rfl

/-- Witness for the amended C4: one read at minute 30, width 60 — exactly
one window row, and it contains the read. -/
theorem window_partition_amended_witness :
    (0 < 60) ∧
    window_count_containing 60 [((30 : ℚ), 9/2, 10)] 30 = 1 :=
  ⟨by decide,
   ((window_partition_amended 60 [((30 : ℚ), 9/2, 10)] (by decide)
       (by intro r hr; simp at hr; rw [hr]; norm_num)).1
     ((30 : ℚ), 9/2, 10) (by simp) (by
       show ((⌊(30 : ℚ) / ((60 : ℕ) : ℚ)⌋₊ * 60 : ℕ) : ℚ) <
         max_time [((30 : ℚ), 9/2, 10)]
       have h1 : ⌊(30 : ℚ) / ((60 : ℕ) : ℚ)⌋₊ = 0 := by
         rw [Nat.floor_eq_zero]
         norm_num
       rw [h1]
       simp [max_time])).1⟩

/-! ## The acquisition loop's idle stop (basecall.py lines 104-121)

```
    minutes_since_last_read, waiting = 0.0, False
    while True:
        if minutes_since_last_read >= args.stop_time:
            print_stop_message(args.stop_time)
            break
        new_fast5s, all_fast5s = check_for_reads(...)
        if new_fast5s:
            ...
            minutes_since_last_read, waiting = 0.0, False
        else:
            ...
            tick_seconds = 10
            minutes_since_last_read += tick_seconds / 60
            time.sleep(tick_seconds)
```

With no new files ever appearing, the accumulator after `n` idle ticks is
`n` float additions of `10 / 60`.  Two models are given: exact rational
arithmetic (the spec's reading), and IEEE-754 binary64 arithmetic as Python
actually performs it, with round-to-nearest-even made explicit. -/

/-- Exact-arithmetic accumulator after `n` idle ticks. -/
def minutes_exact : ℕ → ℚ
  | 0 => 0
  | n + 1 => minutes_exact n + 10 / 60

/-- Round a rational to the nearest integer, ties to even. -/
def roundHalfEven (x : ℚ) : ℤ :=
  if x - ⌊x⌋ < 1/2 then ⌊x⌋
  else if 1/2 < x - ⌊x⌋ then ⌊x⌋ + 1
  else if ⌊x⌋ % 2 = 0 then ⌊x⌋ else ⌊x⌋ + 1

/-- IEEE-754 binary64 rounding (round to nearest, ties to even) of a
positive rational in the normal range: the significand is rounded to 53 bits
at the scale `2 ^ (Int.log 2 q - 52)`.  Subnormals and overflow cannot occur
at the values the loop reaches and are not modelled. -/
def floatRound (q : ℚ) : ℚ :=
  if q ≤ 0 then 0
  else (roundHalfEven (q * 2 ^ (52 - Int.log 2 q)) : ℚ) * 2 ^ (Int.log 2 q - 52)

/-- Python float addition: exact sum, then binary64 rounding. -/
def float_add (a b : ℚ) : ℚ := floatRound (a + b)

/-- The double nearest `10 / 60` (what `tick_seconds / 60` evaluates to). -/
def tick_minutes_float : ℚ := floatRound (10 / 60)

/-- Binary64 accumulator after `n` idle ticks, as Python computes it. -/
def minutes_float : ℕ → ℚ
  | 0 => 0
  | n + 1 => float_add (minutes_float n) tick_minutes_float

/-- The loop breaks out right before the scan of tick `n + 1` when the
accumulator has reached the threshold after `n` ticks and had not reached it
before any earlier scan. -/
def stops_after (minutes : ℕ → ℚ) (stop_time : ℚ) (n : ℕ) : Prop :=
  stop_time ≤ minutes n ∧ ∀ k < n, minutes k < stop_time

lemma int_log_eq {q : ℚ} {e : ℤ} (h : 0 < q) (a : (2:ℚ) ^ e ≤ q)
    (b : q < (2:ℚ) ^ (e + 1)) : Int.log 2 q = e := by
  have ha' : e ≤ Int.log 2 q :=
    (Int.zpow_le_iff_le_log (by norm_num) h).mp (by exact_mod_cast a)
  have hb' : Int.log 2 q < e + 1 :=
    (Int.lt_zpow_iff_log_lt (by norm_num) h).mp (by exact_mod_cast b)
  omega

lemma floatRound_eval {q : ℚ} {e : ℤ} {v : ℚ} (h : 0 < q)
    (a : (2:ℚ) ^ e ≤ q) (b : q < (2:ℚ) ^ (e + 1))
    (c : (roundHalfEven (q * 2 ^ (52 - e)) : ℚ) * 2 ^ (e - 52) = v) :
    floatRound q = v := by
  rw [floatRound, if_neg (not_le.mpr h), int_log_eq h a b, c]

lemma tick_minutes_float_eq :
    tick_minutes_float = 6004799503160661 / 36028797018963968 := by
  apply floatRound_eval (e := -3)
  · norm_num
  · norm_num
  · norm_num
  · norm_num [roundHalfEven]

lemma minutes_float_1 :
    minutes_float 1 = 6004799503160661 / 36028797018963968 := by
  have h : minutes_float 1 = floatRound ((0 : ℚ) + tick_minutes_float) := rfl
  rw [h, tick_minutes_float_eq, zero_add]
  apply floatRound_eval (e := -3)
  · norm_num
  · norm_num
  · norm_num
  · norm_num [roundHalfEven]

lemma minutes_float_2 :
    minutes_float 2 = 6004799503160661 / 18014398509481984 := by
  have h : minutes_float 2 = floatRound (minutes_float 1 + tick_minutes_float) := rfl
  rw [h, minutes_float_1, tick_minutes_float_eq]
  apply floatRound_eval (e := -2)
  · norm_num
  · norm_num
  · norm_num
  · norm_num [roundHalfEven]

lemma minutes_float_3 : minutes_float 3 = 1 / 2 := by
  have h : minutes_float 3 = floatRound (minutes_float 2 + tick_minutes_float) := rfl
  rw [h, minutes_float_2, tick_minutes_float_eq]
  apply floatRound_eval (e := -2)
  · norm_num
  · norm_num
  · norm_num
  · norm_num [roundHalfEven]

lemma minutes_float_4 :
    minutes_float 4 = 6004799503160661 / 9007199254740992 := by
  have h : minutes_float 4 = floatRound (minutes_float 3 + tick_minutes_float) := rfl
  rw [h, minutes_float_3, tick_minutes_float_eq]
  apply floatRound_eval (e := -1)
  · norm_num
  · norm_num
  · norm_num
  · norm_num [roundHalfEven]

lemma minutes_float_5 :
    minutes_float 5 = 3752999689475413 / 4503599627370496 := by
  have h : minutes_float 5 = floatRound (minutes_float 4 + tick_minutes_float) := rfl
  rw [h, minutes_float_4, tick_minutes_float_eq]
  apply floatRound_eval (e := -1)
  · norm_num
  · norm_num
  · norm_num
  · norm_num [roundHalfEven]

lemma minutes_float_6 :
    minutes_float 6 = 9007199254740991 / 9007199254740992 := by
  have h : minutes_float 6 = floatRound (minutes_float 5 + tick_minutes_float) := rfl
  rw [h, minutes_float_5, tick_minutes_float_eq]
  apply floatRound_eval (e := -1)
  · norm_num
  · norm_num
  · norm_num
  · norm_num [roundHalfEven]

lemma minutes_float_7 :
    minutes_float 7 = 2627099782632789 / 2251799813685248 := by
  have h : minutes_float 7 = floatRound (minutes_float 6 + tick_minutes_float) := rfl
  rw [h, minutes_float_6, tick_minutes_float_eq]
  apply floatRound_eval (e := 0)
  · norm_num
  · norm_num
  · norm_num
  · norm_num [roundHalfEven]

lemma minutes_exact_eq (n : ℕ) : minutes_exact n = n * (10 / 60) := by
  induction n with
  | zero => simp [minutes_exact]
  | succ k ih =>
    show minutes_exact k + 10 / 60 = _
    rw [ih]
    push_cast
    ring

/-- C5: in exact arithmetic the idle loop with threshold 1 minute and
10-second ticks stops after exactly 6 idle ticks, as the claim states — the
check `minutes_since_last_read >= stop_time` runs before each scan and six
exact increments of `10/60` reach 1.  But the code accumulates Python
floats: six binary64 additions of `10/60` give
`9007199254740991/9007199254740992 = 0.9999999999999999 < 1`, so the real
loop performs a seventh idle tick and only then stops. -/
theorem idle_stop_tick_count :
    stops_after minutes_exact 1 6 ∧
    minutes_float 6 < 1 ∧
    stops_after minutes_float 1 7 := by
  refine ⟨⟨?_, ?_⟩, ?_, ?_, ?_⟩
  · rw [minutes_exact_eq]
    norm_num
  · intro k hk
    rw [minutes_exact_eq]
    have hk' : (k : ℚ) ≤ 5 := by
      have : k ≤ 5 := by omega
      exact_mod_cast this
    linarith
  · rw [minutes_float_6]
    norm_num
  · rw [minutes_float_7]
    norm_num
  · intro k hk
    interval_cases k
    · show (0 : ℚ) < 1
      norm_num
    · rw [minutes_float_1]; norm_num
    · rw [minutes_float_2]; norm_num
    · rw [minutes_float_3]; norm_num
    · rw [minutes_float_4]; norm_num
    · rw [minutes_float_5]; norm_num
    · rw [minutes_float_6]; norm_num

end Basecall
